import Mathlib

/-!
Shallow embedding of `compare_ocr_models.py`: an OCR comparison script with
two phases.  `run_ollama_ocr_integrated` filters a directory listing to image
files, truncates to a sample count, and for each image reads its bytes, issues
one inference request and persists the trimmed response text to
`<base>/<sanitized-model>/<stem>.txt`.  `generate_comparison_report`
recomputes the sample stems independently and assembles a markdown report by
a sequence of writes ("chunks" below), reading the persisted files back.

External effects (filesystem reads, the HTTP call) are supplied by oracles
(`Env` for the runner, `FS` for the report generator); `fsOfRuns` builds the
`FS` the report generator sees from the runner's results, modelling the
sequential `main`.
-/

set_option autoImplicit false

namespace CompareOcr

/-- Python `str.strip` on a list of characters: drop leading whitespace,
then trailing whitespace. -/
def pyStripList (l : List Char) : List Char :=
  ((l.dropWhile Char.isWhitespace).reverse.dropWhile Char.isWhitespace).reverse

/-- Python `str.strip` on strings (used for `.strip()` in the source). -/
def pyStrip (s : String) : String := ⟨pyStripList s.data⟩

/-- One entry of `Path(image_dir).iterdir()`: `Path.stem`, `Path.suffix`
(with the leading dot) and `Path.is_file()` are modelled as fields. -/
structure Entry where
  stem : String
  suffix : String
  isFile : Bool
deriving DecidableEq

/-- `str.lower()` as a character map (the compared extensions are ASCII). -/
def lowerStr (s : String) : String := ⟨s.data.map Char.toLower⟩

/-- `f.is_file() and f.suffix.lower() in ['.jpeg', '.jpg', '.png']`. -/
def isImageFile (e : Entry) : Bool :=
  e.isFile && decide (lowerStr e.suffix ∈ [".jpeg", ".jpg", ".png"])

/-- The runner's sample list (line 26-28): filter the directory listing to
image files, then truncate to the sample count. -/
def sampleFiles (dir : List Entry) (n : Nat) : List Entry :=
  (dir.filter isImageFile).take n

/-- The report generator's sample list (lines 88-95): collect the stems of
the image files of the directory listing, then truncate to the sample count. -/
def sampleStems (dir : List Entry) (n : Nat) : List String :=
  ((dir.filter isImageFile).map Entry.stem).take n

/-- `model_name.replace('/', '_').replace(':', '_')` (line 22).  Both
patterns are single characters, so each `replace` is a character map. -/
def sanitizeModel (m : String) : String :=
  ⟨(m.data.map (fun c => if c = '/' then '_' else c)).map
    (fun c => if c = ':' then '_' else c)⟩

/-- `Path(base_output_dir) / model_output_dir_name` (line 23). -/
def outputDirPath (base m : String) : String :=
  base ++ "/" ++ sanitizeModel m

/-- `model_output_path / f"{stem}.txt"` (lines 66 and 110). -/
def filePath (dirPath stem : String) : String :=
  dirPath ++ "/" ++ stem ++ ".txt"

/-- The fixed extraction prompt (line 49). -/
def fixedPrompt : String :=
  "Extract all text from this image. Provide only the extracted text."

/-- The JSON body POSTed to the inference endpoint (lines 51-56). -/
structure OllamaRequest where
  model : String
  prompt : String
  stream : Bool
  images : List String
deriving DecidableEq

/-- The payload for one image: model name, fixed prompt, `stream: false`,
and the single base64-encoded image. -/
def mkRequest (m imageData : String) : OllamaRequest :=
  { model := m, prompt := fixedPrompt, stream := false, images := [imageData] }

/-- Outcome of `requests.post` + `raise_for_status` + `.json()` for one
image: `err` covers `RequestException` (network error, non-2xx) and any
unexpected exception; `ok r` is a 2xx JSON response whose `response` field
is `r` (`none` when the field is absent). -/
inductive HttpOutcome where
  | err
  | ok (response : Option String)
deriving DecidableEq

/-- The runner's external world: whether `open(image_path).read()` succeeds
for a given model's pass over an image, the base64 payload of the image's
bytes, and the HTTP outcome per (model, image). -/
structure Env where
  readOk : String → Entry → Bool
  imageData : Entry → String
  http : String → Entry → HttpOutcome

/-- An image iteration succeeds when the read succeeds and the HTTP call
returns 2xx (no exception reaches the per-image handlers). -/
def imageOk (env : Env) (m : String) (e : Entry) : Bool :=
  env.readOk m e &&
    (match env.http m e with
     | .ok _ => true
     | .err => false)

/-- `result.get("response", "").strip()` (line 64): the text the runner
persists for an image whose HTTP call succeeded. -/
def runnerText (env : Env) (m : String) (e : Entry) : String :=
  match env.http m e with
  | .ok r => pyStrip (r.getD "")
  | .err => ""

/-- State accumulated by the runner's per-image loop (lines 36-77):
files written (stem, content) in write order, requests issued in order,
and the `success_all` flag. -/
structure RunState where
  files : List (String × String)
  requests : List OllamaRequest
  success : Bool
deriving DecidableEq

/-- The per-image loop (lines 36-77).  A failed read logs and continues
without issuing a request; a failed HTTP call logs and continues without
writing; a 2xx response writes the trimmed `response` field (defaulting to
the empty string when absent) under the image's stem. -/
def processImages (env : Env) (m : String) : List Entry → RunState
  | [] => ⟨[], [], true⟩
  | e :: rest =>
    let tl := processImages env m rest
    if env.readOk m e then
      match env.http m e with
      | .ok r =>
        ⟨(e.stem, pyStrip (r.getD "")) :: tl.files,
         mkRequest m (env.imageData e) :: tl.requests, tl.success⟩
      | .err =>
        ⟨tl.files, mkRequest m (env.imageData e) :: tl.requests, false⟩
    else
      ⟨tl.files, tl.requests, false⟩

/-- A filesystem effect of the runner, in program order. -/
inductive Effect where
  | mkdir (path : String)
  | write (path : String) (content : String)
deriving DecidableEq

/-- The runner's observable result: its filesystem effects in order, the
files written (stem, content), the requests issued, and its return value. -/
structure RunResult where
  effects : List Effect
  files : List (String × String)
  requests : List OllamaRequest
  success : Bool
deriving DecidableEq

/-- `run_ollama_ocr_integrated(model_name, image_dir, base_output_dir,
num_sample_images)` (lines 18-78): create the model output directory
(parents, exist_ok), compute the sample list, return `False` when it is
empty, otherwise run the per-image loop and return `success_all`. -/
def run_ollama_ocr_integrated (m : String) (dir : List Entry) (base : String)
    (n : Nat) (env : Env) : RunResult :=
  let dirPath := outputDirPath base m
  let image_files := sampleFiles dir n
  if image_files.isEmpty then
    ⟨[Effect.mkdir dirPath], [], [], false⟩
  else
    let st := processImages env m image_files
    ⟨Effect.mkdir dirPath ::
       st.files.map (fun p => Effect.write (filePath dirPath p.1) p.2),
     st.files, st.requests, st.success⟩

/-- The content of the file at key `s` after a sequence of writes (in
chronological order): the last write wins, `none` when never written. -/
def lastWrite : List (String × String) → String → Option String
  | [], _ => none
  | p :: rest, s =>
    match lastWrite rest s with
    | some w => some w
    | none => if p.1 = s then some p.2 else none

/-- The filesystem as the report generator sees it: whether a model output
directory exists, and the content of `<dirPath>/<stem>.txt` (`none` when
the file is absent).  File reads that succeed are modelled as total. -/
structure FS where
  dirExists : String → Bool
  fileContent : String → String → Option String

/-- The filesystem state after `main` ran the runner for every model in
order: each model's output directory exists (the runner's `mkdir`), and a
file's content is the last write among the runs that target its directory. -/
def fsOfRuns (models : List String) (dir : List Entry) (base : String)
    (n : Nat) (env : Env) : FS :=
  { dirExists := fun d => models.any (fun m => outputDirPath base m == d),
    fileContent := fun d s =>
      lastWrite
        ((models.filter (fun m => outputDirPath base m == d)).flatMap
          (fun m => (run_ollama_ocr_integrated m dir base n env).files)) s }

/-! ### Report chunks

Each `def ...Chunk` below is the exact string of one `f.write` call of
`generate_comparison_report` (lines 80-135); the report is the
concatenation of the chunk list. -/

def preambleChunks : List String :=
  ["### 📝 **Ollama OCR 모델 비교 결과**\n\n",
   "다양한 OCR 모델들의 성능을 비교했습니다.\n\n"]

def noSamplesChunk : String :=
  "No sample images processed to include in report.\n"

def sectionHeaderChunk (m : String) : String :=
  "#### **" ++ m ++ "** ✨\n"

def statusNotFoundChunk : String :=
  "**Status:** OCR run failed or output directory not found. 😞\n\n"

def imageHeaderChunk (stem : String) : String :=
  "##### **이미지: " ++ stem ++ ".jpeg/png**\n"

def extractedLabelChunk : String := "**추출된 텍스트:**\n"

def fenceOpenChunk : String := "```\n"

def fenceCloseChunk : String := "\n```\n"

def emptyTextChunk : String := "**추출된 텍스트:** (없음)\n"

def evalChunk : String :=
  "**평가:** 수동 검토 필요. 이 모델이 이 이미지에서 텍스트를 얼마나 잘 추출했는지 확인해주세요. 🤔\n\n"

def notFoundChunk : String := "**추출된 텍스트:** (파일 없음)\n"

def notFoundEvalChunk : String :=
  "**평가:** OCR 결과 파일을 찾을 수 없습니다. 모델이 이 이미지를 처리하지 못했거나 오류가 발생했을 수 있습니다. ❌\n\n"

def separatorChunk : String := "---\n\n"

def closingChunks : List String :=
  ["**종합 요약:**\n",
   "각 모델의 상세 평가는 위에 제시된 개별 이미지 결과와 함께 수동으로 진행되어야 합니다. 전반적인 성능은 추출된 텍스트의 양과 정확성을 바탕으로 판단할 수 있습니다. 🌟\n"]

/-- The writes for one sample image (lines 109-129): the image header, then
either the stripped file content in a code fence (or the empty-text marker)
followed by the evaluation note, or the file-not-found markers. -/
def imageChunks (fs : FS) (dirPath stem : String) : List String :=
  imageHeaderChunk stem ::
    match fs.fileContent dirPath stem with
    | some t =>
      let extracted := pyStrip t
      (if extracted = "" then [emptyTextChunk]
       else [extractedLabelChunk, fenceOpenChunk, extracted, fenceCloseChunk]) ++
        [evalChunk]
    | none => [notFoundChunk, notFoundEvalChunk]

/-- The writes for one model's section (lines 100-130): the section header,
then either the status marker when the model's output directory is absent
(`continue`, skipping the separator), or every sample image's chunks
followed by the separator. -/
def modelChunks (fs : FS) (base : String) (stems : List String) (m : String) :
    List String :=
  sectionHeaderChunk m ::
    (if fs.dirExists (outputDirPath base m) then
       stems.flatMap (imageChunks fs (outputDirPath base m)) ++ [separatorChunk]
     else [statusNotFoundChunk])

/-- `generate_comparison_report(models, base_output_dir, report_path,
image_dir, num_sample_images)` (lines 80-135) as the ordered list of chunks
written to the report file (the report path only names the output file and
is omitted).  An empty sample list writes the no-samples message and
returns early, skipping the model sections and the closing summary. -/
def generate_comparison_report (models : List String) (base : String)
    (fs : FS) (dir : List Entry) (n : Nat) : List String :=
  let stems := sampleStems dir n
  preambleChunks ++
    (if stems.isEmpty then [noSamplesChunk]
     else models.flatMap (modelChunks fs base stems) ++ closingChunks)

/-- Sequential concatenation of the written chunks: the report file's text. -/
def sjoin : List String → String
  | [] => ""
  | c :: rest => c ++ sjoin rest

/-- The full text of the generated report. -/
def reportText (models : List String) (base : String) (fs : FS)
    (dir : List Entry) (n : Nat) : String :=
  sjoin (generate_comparison_report models base fs dir n)

/-- The fixed closing summary paragraph as one string. -/
def closingText : String := sjoin closingChunks

/-- Boolean prefix test on the underlying character lists. -/
def startsWith (pat s : String) : Bool := pat.data.isPrefixOf s.data

/-- Boolean suffix test on the underlying character lists. -/
def endsWith (pat s : String) : Bool :=
  pat.data.reverse.isPrefixOf s.data.reverse

/-! ### Helper lemmas about the runner -/

lemma processImages_files (env : Env) (m : String) (l : List Entry) :
    (processImages env m l).files
      = (l.filter (fun e => imageOk env m e)).map
          (fun e => (e.stem, runnerText env m e)) := by
  induction l with
  | nil => rfl
  | cons e t ih =>
    simp only [processImages]
    cases hr : env.readOk m e with
    | false => simp [imageOk, hr, List.filter_cons, ih]
    | true =>
      cases hh : env.http m e with
      | ok r => simp [imageOk, runnerText, hr, hh, List.filter_cons, ih]
      | err => simp [imageOk, hr, hh, List.filter_cons, ih]

lemma processImages_requests (env : Env) (m : String) (l : List Entry) :
    (processImages env m l).requests
      = (l.filter (fun e => env.readOk m e)).map
          (fun e => mkRequest m (env.imageData e)) := by
  induction l with
  | nil => rfl
  | cons e t ih =>
    simp only [processImages]
    cases hr : env.readOk m e with
    | false => simp [hr, List.filter_cons, ih]
    | true =>
      cases hh : env.http m e with
      | ok r => simp [hr, hh, List.filter_cons, ih]
      | err => simp [hr, hh, List.filter_cons, ih]

lemma processImages_success (env : Env) (m : String) (l : List Entry) :
    (processImages env m l).success = l.all (fun e => imageOk env m e) := by
  induction l with
  | nil => rfl
  | cons e t ih =>
    simp only [processImages]
    cases hr : env.readOk m e with
    | false => simp [imageOk, hr]
    | true =>
      cases hh : env.http m e with
      | ok r => simp [imageOk, hr, hh, ih]
      | err => simp [imageOk, hr, hh]

lemma run_files (m : String) (dir : List Entry) (base : String) (n : Nat)
    (env : Env) :
    (run_ollama_ocr_integrated m dir base n env).files
      = ((sampleFiles dir n).filter (fun e => imageOk env m e)).map
          (fun e => (e.stem, runnerText env m e)) := by
  unfold run_ollama_ocr_integrated
  cases hse : (sampleFiles dir n).isEmpty with
  | true =>
    rw [List.isEmpty_iff] at hse
    simp [hse]
  | false => simp [hse, processImages_files]

lemma run_requests (m : String) (dir : List Entry) (base : String) (n : Nat)
    (env : Env) :
    (run_ollama_ocr_integrated m dir base n env).requests
      = ((sampleFiles dir n).filter (fun e => env.readOk m e)).map
          (fun e => mkRequest m (env.imageData e)) := by
  unfold run_ollama_ocr_integrated
  cases hse : (sampleFiles dir n).isEmpty with
  | true =>
    rw [List.isEmpty_iff] at hse
    simp [hse]
  | false => simp [hse, processImages_requests]

lemma run_success (m : String) (dir : List Entry) (base : String) (n : Nat)
    (env : Env) :
    (run_ollama_ocr_integrated m dir base n env).success
      = (!(sampleFiles dir n).isEmpty
          && (sampleFiles dir n).all (fun e => imageOk env m e)) := by
  unfold run_ollama_ocr_integrated
  cases hse : (sampleFiles dir n).isEmpty with
  | true => simp [hse]
  | false => simp [hse, processImages_success]

lemma run_effects (m : String) (dir : List Entry) (base : String) (n : Nat)
    (env : Env) :
    (run_ollama_ocr_integrated m dir base n env).effects
      = Effect.mkdir (outputDirPath base m) ::
          ((run_ollama_ocr_integrated m dir base n env).files.map
            (fun p => Effect.write (filePath (outputDirPath base m) p.1) p.2)) := by
  unfold run_ollama_ocr_integrated
  cases hse : (sampleFiles dir n).isEmpty with
  | true => simp [hse]
  | false => simp [hse]

/-! ### Helper lemmas about `pyStrip` -/

lemma dropWhile_dropWhile {α : Type} (p : α → Bool) (l : List α) :
    (l.dropWhile p).dropWhile p = l.dropWhile p := by
  induction l with
  | nil => rfl
  | cons a t ih =>
    cases hp : p a with
    | true => simp [List.dropWhile_cons, hp, ih]
    | false => simp [List.dropWhile_cons, hp]

lemma dropWhile_of_prefix_dropWhile {α : Type} (p : α → Bool)
    {l' L : List α} (h : l' <+: L.dropWhile p) : l'.dropWhile p = l' := by
  cases hd : L.dropWhile p with
  | nil =>
    rw [hd, List.prefix_nil] at h
    subst h
    rfl
  | cons a t =>
    rw [hd] at h
    have hne : L.dropWhile p ≠ [] := by rw [hd]; exact List.cons_ne_nil a t
    have ha := List.head_dropWhile_not p L hne
    have h2 : (L.dropWhile p).head? = some a := by rw [hd]; rfl
    have h3 : (L.dropWhile p).head hne = a := by
      have h4 := List.head?_eq_head (l := L.dropWhile p) hne
      rw [h2] at h4
      exact (Option.some.inj h4).symm
    rw [h3] at ha
    cases l' with
    | nil => rfl
    | cons b t' =>
      obtain ⟨rfl, -⟩ := List.cons_prefix_cons.mp h
      simp [List.dropWhile_cons, ha]

lemma pyStripList_idem (l : List Char) :
    pyStripList (pyStripList l) = pyStripList l := by
  have hBA : ((l.dropWhile Char.isWhitespace).reverse.dropWhile
        Char.isWhitespace).reverse <+: l.dropWhile Char.isWhitespace := by
    have hsuf := List.dropWhile_suffix
      (l := (l.dropWhile Char.isWhitespace).reverse) Char.isWhitespace
    have h := List.reverse_prefix.mpr hsuf
    rwa [List.reverse_reverse] at h
  have h1 := dropWhile_of_prefix_dropWhile Char.isWhitespace hBA
  have h2 := dropWhile_dropWhile Char.isWhitespace
    (l.dropWhile Char.isWhitespace).reverse
  unfold pyStripList
  rw [h1, List.reverse_reverse, h2]

lemma pyStrip_idem (s : String) : pyStrip (pyStrip s) = pyStrip s :=
  congrArg String.mk (pyStripList_idem s.data)

/-- Every text the runner persists is already stripped, so stripping it
again (as the report generator does after reading the file) is the
identity. -/
lemma runnerText_stripped (env : Env) (m : String) (e : Entry) :
    pyStrip (runnerText env m e) = runnerText env m e := by
  unfold runnerText
  cases env.http m e with
  | err => rfl
  | ok r => exact pyStrip_idem _

/-! ### Helper lemmas about `sjoin` and report decompositions -/

lemma sjoin_data (l : List String) :
    (sjoin l).data = (l.map String.data).flatten := by
  induction l with
  | nil => rfl
  | cons c t ih => simp [sjoin, String.data_append, ih]

lemma sjoin_infix_of_eq_append {l A mid B : List String}
    (h : l = A ++ mid ++ B) : (sjoin mid).data <:+: (sjoin l).data := by
  subst h
  rw [sjoin_data, sjoin_data]
  refine ⟨(A.map String.data).flatten, (B.map String.data).flatten, ?_⟩
  simp

lemma sjoin_single_data (a : String) : (sjoin [a]).data = a.data := by
  simp [sjoin_data]

lemma sjoin_triple_data (a b c : String) :
    (sjoin [a, b, c]).data = (a ++ b ++ c).data := by
  simp [sjoin_data, String.data_append]

/-! ### Helper lemmas about `lastWrite` and `fsOfRuns` -/

lemma lastWrite_eq_none {l : List (String × String)} {s : String}
    (h : ∀ p ∈ l, p.1 ≠ s) : lastWrite l s = none := by
  induction l with
  | nil => rfl
  | cons p t ih =>
    have hp := h p (List.mem_cons_self p t)
    have ht := ih (fun q hq => h q (List.mem_cons_of_mem p hq))
    simp [lastWrite, ht, hp]

lemma lastWrite_map_unique {l : List Entry} {e : Entry} (g : Entry → String)
    (he : e ∈ l) (hu : ∀ x ∈ l, x.stem = e.stem → x = e) :
    lastWrite (l.map (fun x => (x.stem, g x))) e.stem = some (g e) := by
  induction l with
  | nil => cases he
  | cons b t ih =>
    by_cases hbt : e ∈ t
    · have hrec := ih hbt (fun x hx hs => hu x (List.mem_cons_of_mem b hx) hs)
      simp only [List.map_cons, lastWrite, hrec]
    · have hbe : b = e := by
        rcases List.mem_cons.mp he with h | h
        · exact h.symm
        · exact absurd h hbt
      subst hbe
      have hnone : lastWrite (t.map (fun x => (x.stem, g x))) b.stem = none := by
        apply lastWrite_eq_none
        intro p hp
        obtain ⟨x, hx, rfl⟩ := List.mem_map.mp hp
        intro hps
        exact hbt (hu x (List.mem_cons_of_mem b hx) hps ▸ hx)
      simp [List.map_cons, lastWrite, hnone]

lemma filter_eq_singleton_of_nodup_map {α β : Type} [DecidableEq β]
    {f : α → β} {l : List α} {a : α}
    (hnd : (l.map f).Nodup) (ha : a ∈ l) :
    l.filter (fun x => f x == f a) = [a] := by
  induction l with
  | nil => cases ha
  | cons b t ih =>
    rw [List.map_cons, List.nodup_cons] at hnd
    rcases List.mem_cons.mp ha with rfl | hat
    · rw [List.filter_cons_of_pos (by simp)]
      have ht : t.filter (fun x => f x == f a) = [] := by
        apply List.filter_eq_nil_iff.mpr
        intro x hx
        simp only [beq_iff_eq]
        intro hfx
        exact hnd.1 (hfx ▸ List.mem_map_of_mem f hx)
      rw [ht]
    · have hfb : (f b == f a) = false := by
        simp only [beq_eq_false_iff_ne, ne_eq]
        intro hh
        exact hnd.1 (hh ▸ List.mem_map_of_mem f hat)
      rw [List.filter_cons_of_neg (by simp [hfb])]
      exact ih hnd.2 hat

lemma fsOfRuns_dirExists {models : List String} {M : String}
    (dir : List Entry) (base : String) (n : Nat) (env : Env)
    (hM : M ∈ models) :
    (fsOfRuns models dir base n env).dirExists (outputDirPath base M) = true := by
  simp only [fsOfRuns, List.any_eq_true]
  exact ⟨M, hM, by simp⟩

lemma fsOfRuns_fileContent {models : List String} {M : String}
    (dir : List Entry) (base : String) (n : Nat) (env : Env)
    (hM : M ∈ models) (hnd : (models.map (outputDirPath base)).Nodup)
    (s : String) :
    (fsOfRuns models dir base n env).fileContent (outputDirPath base M) s
      = lastWrite (run_ollama_ocr_integrated M dir base n env).files s := by
  simp only [fsOfRuns]
  rw [filter_eq_singleton_of_nodup_map hnd hM]
  simp

/-! ### Chunk characterizations and decompositions of the report -/

lemma sampleStems_eq_map_stem (dir : List Entry) (n : Nat) :
    sampleStems dir n = (sampleFiles dir n).map Entry.stem := by
  simp [sampleStems, sampleFiles, List.map_take]

lemma imageChunks_of_some {fs : FS} {dp stem t : String}
    (h : fs.fileContent dp stem = some t) (hstrip : pyStrip t = t)
    (hne : t ≠ "") :
    imageChunks fs dp stem
      = [imageHeaderChunk stem, extractedLabelChunk, fenceOpenChunk, t,
         fenceCloseChunk, evalChunk] := by
  simp [imageChunks, h, hstrip, hne]

lemma imageChunks_of_some_empty {fs : FS} {dp stem : String}
    (h : fs.fileContent dp stem = some "") :
    imageChunks fs dp stem
      = [imageHeaderChunk stem, emptyTextChunk, evalChunk] := by
  have hstrip : pyStrip "" = "" := rfl
  simp [imageChunks, h, hstrip]

lemma imageChunks_of_none {fs : FS} {dp stem : String}
    (h : fs.fileContent dp stem = none) :
    imageChunks fs dp stem
      = [imageHeaderChunk stem, notFoundChunk, notFoundEvalChunk] := by
  simp [imageChunks, h]

lemma modelChunks_of_dirExists {fs : FS} {base m : String}
    (stems : List String)
    (h : fs.dirExists (outputDirPath base m) = true) :
    modelChunks fs base stems m
      = sectionHeaderChunk m ::
          (stems.flatMap (imageChunks fs (outputDirPath base m))
            ++ [separatorChunk]) := by
  simp [modelChunks, h]

lemma report_decomp_model {models : List String} {m : String}
    (base : String) (fs : FS) (dir : List Entry) (n : Nat)
    (hm : m ∈ models) (hne : sampleStems dir n ≠ []) :
    ∃ A B, generate_comparison_report models base fs dir n
      = A ++ modelChunks fs base (sampleStems dir n) m ++ B := by
  obtain ⟨s, t, rfl⟩ := List.append_of_mem hm
  have hie : (sampleStems dir n).isEmpty = false := by
    cases hsi : (sampleStems dir n).isEmpty with
    | true => exact absurd (List.isEmpty_iff.mp hsi) hne
    | false => rfl
  refine ⟨preambleChunks ++ s.flatMap (modelChunks fs base (sampleStems dir n)),
          t.flatMap (modelChunks fs base (sampleStems dir n)) ++ closingChunks,
          ?_⟩
  simp [generate_comparison_report, hie, List.flatMap_append, List.flatMap_cons]

lemma report_decomp_image {models : List String} {m stem : String}
    (base : String) (fs : FS) (dir : List Entry) (n : Nat)
    (hm : m ∈ models) (hs : stem ∈ sampleStems dir n)
    (hdir : fs.dirExists (outputDirPath base m) = true) :
    ∃ A B, generate_comparison_report models base fs dir n
      = A ++ imageChunks fs (outputDirPath base m) stem ++ B := by
  have hne : sampleStems dir n ≠ [] := List.ne_nil_of_mem hs
  obtain ⟨A1, B1, h1⟩ := report_decomp_model base fs dir n hm hne
  obtain ⟨u, v, huv⟩ := List.append_of_mem hs
  rw [modelChunks_of_dirExists _ hdir, huv] at h1
  refine ⟨A1 ++ (sectionHeaderChunk m ::
            u.flatMap (imageChunks fs (outputDirPath base m))),
          (v.flatMap (imageChunks fs (outputDirPath base m))
            ++ [separatorChunk]) ++ B1, ?_⟩
  rw [h1]
  simp [List.flatMap_append, List.flatMap_cons]

lemma infix_report_of_imageChunks {models : List String} {m stem : String}
    (base : String) (fs : FS) (dir : List Entry) (n : Nat)
    (hm : m ∈ models) (hs : stem ∈ sampleStems dir n)
    (hdir : fs.dirExists (outputDirPath base m) = true) :
    (sjoin (imageChunks fs (outputDirPath base m) stem)).data <:+:
      (reportText models base fs dir n).data := by
  obtain ⟨A, B, hAB⟩ := report_decomp_image base fs dir n hm hs hdir
  exact sjoin_infix_of_eq_append hAB

/-! ### Concrete fixtures used by the witness theorems -/

def wEntries : List Entry :=
  [⟨"r1", ".jpg", true⟩, ⟨"r2", ".png", true⟩, ⟨"r3", ".JPEG", true⟩,
   ⟨"r4", ".jpg", true⟩, ⟨"r5", ".png", true⟩]

def wEnv : Env :=
  { readOk := fun _ _ => true,
    imageData := fun e => e.stem,
    http := fun _ _ => HttpOutcome.ok (some " text ") }

/-! ### Linking runner results to the report's filesystem view -/

lemma fileContent_of_ok {models : List String} {M : String} {e : Entry}
    {dir : List Entry} {base : String} {n : Nat} {env : Env}
    (hM : M ∈ models) (hnd : (models.map (outputDirPath base)).Nodup)
    (he : e ∈ sampleFiles dir n)
    (huniq : ∀ x ∈ sampleFiles dir n, x.stem = e.stem → x = e)
    (hok : imageOk env M e = true) :
    (fsOfRuns models dir base n env).fileContent (outputDirPath base M) e.stem
      = some (runnerText env M e) := by
  rw [fsOfRuns_fileContent dir base n env hM hnd, run_files]
  apply lastWrite_map_unique
  · exact List.mem_filter.mpr ⟨he, hok⟩
  · intro x hx hs
    exact huniq x (List.mem_of_mem_filter hx) hs

lemma run_files_no_stem (M : String) (e : Entry) (dir : List Entry)
    (base : String) (n : Nat) (env : Env)
    (hother : ∀ x ∈ sampleFiles dir n, x.stem = e.stem →
        imageOk env M x = false) :
    ∀ p ∈ (run_ollama_ocr_integrated M dir base n env).files, p.1 ≠ e.stem := by
  intro p hp
  rw [run_files] at hp
  obtain ⟨x, hx, rfl⟩ := List.mem_map.mp hp
  intro hs
  have hxok := (List.mem_filter.mp hx).2
  rw [hother x (List.mem_of_mem_filter hx) hs] at hxok
  exact Bool.false_ne_true hxok

lemma stem_mem_sampleStems {e : Entry} {dir : List Entry} {n : Nat}
    (he : e ∈ sampleFiles dir n) : e.stem ∈ sampleStems dir n := by
  rw [sampleStems_eq_map_stem]
  exact List.mem_map_of_mem Entry.stem he

lemma infix_fence_block (ih label fo w fc ev : String) :
    (fo ++ w ++ fc).data <:+: (sjoin [ih, label, fo, w, fc, ev]).data :=
  ⟨ih.data ++ label.data, ev.data, by simp [sjoin_data, String.data_append]⟩

/-! ### C1: round-trip of persisted text into the report -/

/-- C1: for a model `M` in the model list (with distinct sanitized output
directories) and a sampled image `e` (whose stem identifies it uniquely
among the samples) whose inference call succeeded, the text the runner
persisted for `e` under `M` (`runnerText`) is exactly the file content the
report generator reads back, and the report embeds exactly that text
verbatim between the surrounding markdown code fences in the section for
`M` and `e` (for nonempty text; empty text renders the empty marker
instead). -/
theorem claim1_roundtrip (models : List String) (dir : List Entry)
    (base : String) (n : Nat) (env : Env) (M : String) (e : Entry)
    (hM : M ∈ models) (hnd : (models.map (outputDirPath base)).Nodup)
    (he : e ∈ sampleFiles dir n)
    (huniq : ∀ x ∈ sampleFiles dir n, x.stem = e.stem → x = e)
    (hok : imageOk env M e = true)
    (hne : runnerText env M e ≠ "") :
    (fsOfRuns models dir base n env).fileContent (outputDirPath base M) e.stem
        = some (runnerText env M e) ∧
    imageChunks (fsOfRuns models dir base n env) (outputDirPath base M) e.stem
        = [imageHeaderChunk e.stem, extractedLabelChunk, fenceOpenChunk,
           runnerText env M e, fenceCloseChunk, evalChunk] ∧
    (fenceOpenChunk ++ runnerText env M e ++ fenceCloseChunk).data <:+:
        (reportText models base (fsOfRuns models dir base n env) dir n).data := by
  have hcontent := fileContent_of_ok hM hnd he huniq hok
  have hchunks := imageChunks_of_some hcontent (runnerText_stripped env M e) hne
  refine ⟨hcontent, hchunks, ?_⟩
  have hinfix := infix_report_of_imageChunks base (fsOfRuns models dir base n env)
    dir n hM (stem_mem_sampleStems he) (fsOfRuns_dirExists dir base n env hM)
  rw [hchunks] at hinfix
  exact (infix_fence_block _ _ _ _ _ _).trans hinfix

def wE1 : Entry := ⟨"r1", ".jpg", true⟩

def wE2 : Entry := ⟨"r2", ".png", true⟩

def wE3 : Entry := ⟨"r3", ".JPEG", true⟩

theorem claim1_roundtrip_witness :
    (wE1 ∈ sampleFiles wEntries 3) ∧
    (∀ x ∈ sampleFiles wEntries 3, x.stem = wE1.stem → x = wE1) ∧
    imageOk wEnv "m1" wE1 = true ∧
    runnerText wEnv "m1" wE1 ≠ "" ∧
    ((fsOfRuns ["m1"] wEntries "out" 3 wEnv).fileContent
          (outputDirPath "out" "m1") wE1.stem
        = some (runnerText wEnv "m1" wE1) ∧
      imageChunks (fsOfRuns ["m1"] wEntries "out" 3 wEnv)
          (outputDirPath "out" "m1") wE1.stem
        = [imageHeaderChunk wE1.stem, extractedLabelChunk, fenceOpenChunk,
           runnerText wEnv "m1" wE1, fenceCloseChunk, evalChunk] ∧
      (fenceOpenChunk ++ runnerText wEnv "m1" wE1
          ++ fenceCloseChunk).data <:+:
        (reportText ["m1"] "out" (fsOfRuns ["m1"] wEntries "out" 3 wEnv)
          wEntries 3).data) := by
  refine ⟨by decide, by decide, by decide, by decide, ?_⟩
  exact claim1_roundtrip ["m1"] wEntries "out" 3 wEnv "m1" wE1
    (by decide) (by decide) (by decide) (by decide) (by decide) (by decide)

/-! ### C4: a failed inference call leaves no file and is reported not found -/

def wEnvMixed : Env :=
  { readOk := fun _ _ => true,
    imageData := fun e => e.stem,
    http := fun _ e =>
      if e.stem = "r2" then HttpOutcome.err
      else if e.stem = "r3" then HttpOutcome.ok none
      else HttpOutcome.ok (some " text ") }

/-- C4: if the inference call for a sampled image fails (read error,
network/HTTP error or non-2xx), and no other sampled image sharing its
stem succeeds, then the runner writes no file under that image's stem, the
report generator finds the file absent, and the report's section for that
model and image carries the file-not-found markers. -/
theorem claim4_failure_not_found (models : List String) (dir : List Entry)
    (base : String) (n : Nat) (env : Env) (M : String) (e : Entry)
    (hM : M ∈ models) (hnd : (models.map (outputDirPath base)).Nodup)
    (he : e ∈ sampleFiles dir n)
    (hfail : imageOk env M e = false)
    (hother : ∀ x ∈ sampleFiles dir n, x.stem = e.stem → x ≠ e →
        imageOk env M x = false) :
    (∀ p ∈ (run_ollama_ocr_integrated M dir base n env).files, p.1 ≠ e.stem) ∧
    (fsOfRuns models dir base n env).fileContent (outputDirPath base M) e.stem
        = none ∧
    imageChunks (fsOfRuns models dir base n env) (outputDirPath base M) e.stem
        = [imageHeaderChunk e.stem, notFoundChunk, notFoundEvalChunk] ∧
    (imageHeaderChunk e.stem ++ notFoundChunk ++ notFoundEvalChunk).data <:+:
        (reportText models base (fsOfRuns models dir base n env) dir n).data := by
  have hall : ∀ x ∈ sampleFiles dir n, x.stem = e.stem →
      imageOk env M x = false := by
    intro x hx hs
    by_cases hxe : x = e
    · exact hxe ▸ hfail
    · exact hother x hx hs hxe
  have hno := run_files_no_stem M e dir base n env hall
  have hcontent : (fsOfRuns models dir base n env).fileContent
      (outputDirPath base M) e.stem = none := by
    rw [fsOfRuns_fileContent dir base n env hM hnd]
    exact lastWrite_eq_none hno
  have hchunks := imageChunks_of_none hcontent
  refine ⟨hno, hcontent, hchunks, ?_⟩
  have hinfix := infix_report_of_imageChunks base (fsOfRuns models dir base n env)
    dir n hM (stem_mem_sampleStems he) (fsOfRuns_dirExists dir base n env hM)
  rw [hchunks, sjoin_triple_data] at hinfix
  exact hinfix

theorem claim4_failure_not_found_witness :
    (wE2 ∈ sampleFiles wEntries 3) ∧
    imageOk wEnvMixed "m1" wE2 = false ∧
    (∀ x ∈ sampleFiles wEntries 3, x.stem = wE2.stem → x ≠ wE2 →
        imageOk wEnvMixed "m1" x = false) ∧
    ((∀ p ∈ (run_ollama_ocr_integrated "m1" wEntries "out" 3 wEnvMixed).files,
          p.1 ≠ wE2.stem) ∧
      (fsOfRuns ["m1"] wEntries "out" 3 wEnvMixed).fileContent
          (outputDirPath "out" "m1") wE2.stem = none ∧
      imageChunks (fsOfRuns ["m1"] wEntries "out" 3 wEnvMixed)
          (outputDirPath "out" "m1") wE2.stem
        = [imageHeaderChunk wE2.stem, notFoundChunk, notFoundEvalChunk] ∧
      (imageHeaderChunk wE2.stem ++ notFoundChunk ++ notFoundEvalChunk).data <:+:
        (reportText ["m1"] "out" (fsOfRuns ["m1"] wEntries "out" 3 wEnvMixed)
          wEntries 3).data) := by
  refine ⟨by decide, by decide, by decide, ?_⟩
  exact claim4_failure_not_found ["m1"] wEntries "out" 3 wEnvMixed "m1"
    wE2 (by decide) (by decide) (by decide) (by decide) (by decide)

/-! ### C9: the output directory is created unconditionally -/

/-- C9: the runner's first filesystem effect is always the creation of the
model output directory, even when it returns false because no image files
were found; consequently, after every model's run, the report generator
sees the directory as existing and its directory-not-found branch is not
taken: the model's section is the header followed by the per-image chunks
and the separator. -/
theorem claim9_mkdir_unconditional (models : List String) (dir : List Entry)
    (base : String) (n : Nat) (env : Env) (M : String) (hM : M ∈ models) :
    (run_ollama_ocr_integrated M dir base n env).effects.head?
        = some (Effect.mkdir (outputDirPath base M)) ∧
    (sampleFiles dir n = [] →
      (run_ollama_ocr_integrated M dir base n env).success = false) ∧
    (fsOfRuns models dir base n env).dirExists (outputDirPath base M) = true ∧
    modelChunks (fsOfRuns models dir base n env) base (sampleStems dir n) M
      = sectionHeaderChunk M ::
          ((sampleStems dir n).flatMap
            (imageChunks (fsOfRuns models dir base n env) (outputDirPath base M))
            ++ [separatorChunk]) := by
  refine ⟨?_, ?_, fsOfRuns_dirExists dir base n env hM, ?_⟩
  · rw [run_effects]
    rfl
  · intro hempty
    rw [run_success, hempty]
    rfl
  · exact modelChunks_of_dirExists _ (fsOfRuns_dirExists dir base n env hM)

theorem claim9_mkdir_unconditional_witness :
    ("m1" ∈ (["m1"] : List String)) ∧
    ((run_ollama_ocr_integrated "m1" ([] : List Entry) "out" 3 wEnv).effects.head?
        = some (Effect.mkdir (outputDirPath "out" "m1")) ∧
      (sampleFiles ([] : List Entry) 3 = [] →
        (run_ollama_ocr_integrated "m1" ([] : List Entry) "out" 3 wEnv).success
          = false) ∧
      (fsOfRuns ["m1"] ([] : List Entry) "out" 3 wEnv).dirExists
          (outputDirPath "out" "m1") = true ∧
      modelChunks (fsOfRuns ["m1"] ([] : List Entry) "out" 3 wEnv) "out"
          (sampleStems ([] : List Entry) 3) "m1"
        = sectionHeaderChunk "m1" ::
            ((sampleStems ([] : List Entry) 3).flatMap
              (imageChunks (fsOfRuns ["m1"] ([] : List Entry) "out" 3 wEnv)
                (outputDirPath "out" "m1"))
              ++ [separatorChunk])) := by
  refine ⟨by decide, ?_⟩
  exact claim9_mkdir_unconditional ["m1"] ([] : List Entry) "out" 3 wEnv "m1"
    (by decide)

/-! ### C10: 2xx response without a `response` field -/

/-- C10: when the HTTP call for a sampled image returns 2xx but the JSON
body has no `response` field, the runner treats the image as a success: it
counts as ok (so the success flag is not spoiled; it is true whenever all
sampled images are ok), an empty file is written for the image, the report
generator reads the empty content back, and the report shows the
empty-text marker rather than the not-found marker for that image. -/
theorem claim10_missing_response_field (models : List String)
    (dir : List Entry) (base : String) (n : Nat) (env : Env) (M : String)
    (e : Entry)
    (hM : M ∈ models) (hnd : (models.map (outputDirPath base)).Nodup)
    (he : e ∈ sampleFiles dir n)
    (huniq : ∀ x ∈ sampleFiles dir n, x.stem = e.stem → x = e)
    (hread : env.readOk M e = true)
    (hhttp : env.http M e = HttpOutcome.ok none) :
    imageOk env M e = true ∧
    ((∀ x ∈ sampleFiles dir n, imageOk env M x = true) →
      (run_ollama_ocr_integrated M dir base n env).success = true) ∧
    (e.stem, "") ∈ (run_ollama_ocr_integrated M dir base n env).files ∧
    (fsOfRuns models dir base n env).fileContent (outputDirPath base M) e.stem
        = some "" ∧
    imageChunks (fsOfRuns models dir base n env) (outputDirPath base M) e.stem
        = [imageHeaderChunk e.stem, emptyTextChunk, evalChunk] ∧
    emptyTextChunk.data <:+:
        (reportText models base (fsOfRuns models dir base n env) dir n).data := by
  have hok : imageOk env M e = true := by simp [imageOk, hread, hhttp]
  have hrt : runnerText env M e = "" := by
    unfold runnerText
    rw [hhttp]
    rfl
  have hcontent : (fsOfRuns models dir base n env).fileContent
      (outputDirPath base M) e.stem = some "" := by
    rw [fileContent_of_ok hM hnd he huniq hok, hrt]
  have hchunks := imageChunks_of_some_empty hcontent
  refine ⟨hok, ?_, ?_, hcontent, hchunks, ?_⟩
  · intro hall
    have hne : sampleFiles dir n ≠ [] := List.ne_nil_of_mem he
    have h1 : (sampleFiles dir n).isEmpty = false := by
      simp [List.isEmpty_iff, hne]
    have h2 : (sampleFiles dir n).all (fun x => imageOk env M x) = true :=
      List.all_eq_true.mpr hall
    rw [run_success, h1, h2]
    rfl
  · rw [run_files]
    refine List.mem_map.mpr ⟨e, List.mem_filter.mpr ⟨he, hok⟩, ?_⟩
    show (e.stem, runnerText env M e) = (e.stem, "")
    rw [hrt]
  · have hinfix := infix_report_of_imageChunks base
      (fsOfRuns models dir base n env) dir n hM (stem_mem_sampleStems he)
      (fsOfRuns_dirExists dir base n env hM)
    rw [hchunks] at hinfix
    have hmid : emptyTextChunk.data <:+:
        (sjoin [imageHeaderChunk e.stem, emptyTextChunk, evalChunk]).data :=
      ⟨(imageHeaderChunk e.stem).data, evalChunk.data,
       by simp [sjoin_data, String.data_append]⟩
    exact hmid.trans hinfix

theorem claim10_missing_response_field_witness :
    (wE3 ∈ sampleFiles wEntries 3) ∧
    (∀ x ∈ sampleFiles wEntries 3, x.stem = wE3.stem → x = wE3) ∧
    wEnvMixed.readOk "m1" wE3 = true ∧
    wEnvMixed.http "m1" wE3 = HttpOutcome.ok none ∧
    (imageOk wEnvMixed "m1" wE3 = true ∧
      ((∀ x ∈ sampleFiles wEntries 3, imageOk wEnvMixed "m1" x = true) →
        (run_ollama_ocr_integrated "m1" wEntries "out" 3 wEnvMixed).success
          = true) ∧
      (wE3.stem, "") ∈ (run_ollama_ocr_integrated "m1" wEntries "out" 3 wEnvMixed).files ∧
      (fsOfRuns ["m1"] wEntries "out" 3 wEnvMixed).fileContent
          (outputDirPath "out" "m1") wE3.stem = some "" ∧
      imageChunks (fsOfRuns ["m1"] wEntries "out" 3 wEnvMixed)
          (outputDirPath "out" "m1") wE3.stem
        = [imageHeaderChunk wE3.stem, emptyTextChunk, evalChunk] ∧
      emptyTextChunk.data <:+:
        (reportText ["m1"] "out" (fsOfRuns ["m1"] wEntries "out" 3 wEnvMixed)
          wEntries 3).data) := by
  refine ⟨by decide, by decide, by decide, by decide, ?_⟩
  exact claim10_missing_response_field ["m1"] wEntries "out" 3 wEnvMixed "m1"
    wE3 (by decide) (by decide) (by decide) (by decide) (by decide) (by decide)

/-! ### C8: the closing summary paragraph -/

def emptyFS : FS := ⟨fun _ => false, fun _ _ => none⟩

lemma endsWith_sjoin_append (A B : List String) :
    endsWith (sjoin B) (sjoin (A ++ B)) = true := by
  unfold endsWith
  rw [ List.isPrefixOf_iff_prefix]
  rw [sjoin_data, sjoin_data, List.map_append, List.flatten_append,
    List.reverse_append]
  exact List.prefix_append _ _

/-- C8 counterexample: for an empty image directory (so an empty sample
list) the generator writes the no-samples message and returns early, and
the report does not end with the fixed closing summary paragraph — the
claim's "for every input" fails. -/
theorem claim8_counterexample :
    endsWith closingText
      (reportText ["m1"] "out" emptyFS ([] : List Entry) 3) = false := by
  decide

/-- C8 (amended): whenever the sample image list is non-empty, the report
written by the report generator ends with the fixed closing summary
paragraph (with an empty sample list the generator returns early after the
no-samples message and the closing paragraph is absent). -/
theorem claim8_closing_when_nonempty (models : List String) (base : String)
    (fs : FS) (dir : List Entry) (n : Nat)
    (hne : sampleStems dir n ≠ []) :
    endsWith closingText (reportText models base fs dir n) = true := by
  have hie : (sampleStems dir n).isEmpty = false := by
    simp [List.isEmpty_iff, hne]
  have hrep : generate_comparison_report models base fs dir n
      = (preambleChunks
          ++ models.flatMap (modelChunks fs base (sampleStems dir n)))
        ++ closingChunks := by
    simp [generate_comparison_report, hie, List.append_assoc]
  unfold reportText
  rw [hrep]
  exact endsWith_sjoin_append _ _

theorem claim8_closing_when_nonempty_witness :
    (sampleStems wEntries 3 ≠ []) ∧
    endsWith closingText
      (reportText ["m1"] "out" emptyFS wEntries 3) = true := by
  refine ⟨by decide, ?_⟩
  exact claim8_closing_when_nonempty ["m1"] "out" emptyFS wEntries 3 (by decide)

/-! ### C7: exactly one section header per model, in input order -/

/-- The string marking a model section header line in the report. -/
def headerMarker : String := "#### **"

lemma isPrefixOf_append_of_le {l a : List Char} (b : List Char)
    (h : l.length ≤ a.length) :
    l.isPrefixOf (a ++ b) = l.isPrefixOf a := by
  have hiff : l <+: (a ++ b) ↔ l <+: a := by
    rw [List.prefix_iff_eq_take, List.prefix_iff_eq_take,
      List.take_append_of_le_length h]
  cases hb : l.isPrefixOf a with
  | true =>
    have hp := ( List.isPrefixOf_iff_prefix).mp hb
    exact ( List.isPrefixOf_iff_prefix).mpr (hiff.mpr hp)
  | false =>
    cases hq : l.isPrefixOf (a ++ b) with
    | false => rfl
    | true =>
      have hr := ( List.isPrefixOf_iff_prefix).mpr
        (hiff.mp (( List.isPrefixOf_iff_prefix).mp hq))
      rw [hb] at hr
      exact (Bool.false_ne_true hr).elim

lemma startsWith_append_left (pat a b : String)
    (h : pat.data.length ≤ a.data.length) :
    startsWith pat (a ++ b) = startsWith pat a := by
  unfold startsWith
  rw [String.data_append]
  exact isPrefixOf_append_of_le _ h

lemma startsWith_header_section (m : String) :
    startsWith headerMarker (sectionHeaderChunk m) = true := by
  unfold startsWith headerMarker sectionHeaderChunk
  rw [ List.isPrefixOf_iff_prefix, String.data_append, String.data_append,
    List.append_assoc]
  exact List.prefix_append _ _

lemma not_header_imageHeader (stem : String) :
    startsWith headerMarker (imageHeaderChunk stem) = false := by
  unfold imageHeaderChunk
  rw [String.append_assoc, startsWith_append_left _ _ _ (by decide)]
  decide

lemma filter_header_imageChunks (fs : FS) (dp stem : String)
    (htext : ∀ t, fs.fileContent dp stem = some t →
        startsWith headerMarker (pyStrip t) = false) :
    (imageChunks fs dp stem).filter
        (fun c => startsWith headerMarker c) = [] := by
  unfold imageChunks
  cases hc : fs.fileContent dp stem with
  | none =>
    simp [List.filter_cons, not_header_imageHeader stem,
      (by decide : startsWith headerMarker notFoundChunk = false),
      (by decide : startsWith headerMarker notFoundEvalChunk = false)]
  | some t =>
    have ht := htext t hc
    rcases eq_or_ne (pyStrip t) "" with he | he
    · simp [he, List.filter_cons, not_header_imageHeader stem,
        (by decide : startsWith headerMarker emptyTextChunk = false),
        (by decide : startsWith headerMarker evalChunk = false)]
    · simp [he, List.filter_cons, not_header_imageHeader stem, ht,
        (by decide : startsWith headerMarker extractedLabelChunk = false),
        (by decide : startsWith headerMarker fenceOpenChunk = false),
        (by decide : startsWith headerMarker fenceCloseChunk = false),
        (by decide : startsWith headerMarker evalChunk = false)]

lemma filter_header_modelChunks (fs : FS) (base : String)
    (stems : List String) (m : String)
    (htext : ∀ d s t, fs.fileContent d s = some t →
        startsWith headerMarker (pyStrip t) = false) :
    (modelChunks fs base stems m).filter
        (fun c => startsWith headerMarker c) = [sectionHeaderChunk m] := by
  unfold modelChunks
  rw [List.filter_cons_of_pos (by simp [startsWith_header_section m])]
  cases hd : fs.dirExists (outputDirPath base m) with
  | false =>
    simp [List.filter_cons,
      (by decide : startsWith headerMarker statusNotFoundChunk = false)]
  | true =>
    simp only [if_pos rfl, if_true]
    rw [List.filter_append]
    have hflat : (stems.flatMap (imageChunks fs (outputDirPath base m))).filter
        (fun c => startsWith headerMarker c) = [] := by
      induction stems with
      | nil => rfl
      | cons s t ih =>
        rw [List.flatMap_cons, List.filter_append, ih,
          filter_header_imageChunks fs _ s (fun u hu => htext _ _ u hu)]
        rfl
    rw [hflat]
    simp [List.filter_cons,
      (by decide : startsWith headerMarker separatorChunk = false)]

/-- C7: for a non-empty sample image list, and provided no stored text
itself begins with the section-header marker, the report's chunks that
begin with the section-header marker are exactly one header per model, in
the order of the input model list. -/
theorem claim7_one_header_per_model (models : List String) (base : String)
    (fs : FS) (dir : List Entry) (n : Nat)
    (hne : sampleStems dir n ≠ [])
    (htext : ∀ d s t, fs.fileContent d s = some t →
        startsWith headerMarker (pyStrip t) = false) :
    (generate_comparison_report models base fs dir n).filter
        (fun c => startsWith headerMarker c)
      = models.map sectionHeaderChunk := by
  have hie : (sampleStems dir n).isEmpty = false := by
    simp [List.isEmpty_iff, hne]
  simp only [generate_comparison_report, hie, Bool.false_eq_true, if_false]
  rw [List.filter_append, List.filter_append]
  have hpre : preambleChunks.filter (fun c => startsWith headerMarker c) = [] := by
    decide
  have hclose : closingChunks.filter (fun c => startsWith headerMarker c) = [] := by
    decide
  have hmods : (models.flatMap (modelChunks fs base (sampleStems dir n))).filter
      (fun c => startsWith headerMarker c) = models.map sectionHeaderChunk := by
    induction models with
    | nil => rfl
    | cons m t ih =>
      rw [List.flatMap_cons, List.filter_append, ih,
        filter_header_modelChunks fs base _ m htext, List.map_cons]
      rfl
  rw [hpre, hclose, hmods, List.append_nil]
  rfl

theorem claim7_one_header_per_model_witness :
    (sampleStems wEntries 3 ≠ []) ∧
    (∀ d s t, emptyFS.fileContent d s = some t →
        startsWith headerMarker (pyStrip t) = false) ∧
    (generate_comparison_report ["mA", "mB"] "out" emptyFS wEntries 3).filter
        (fun c => startsWith headerMarker c)
      = ["mA", "mB"].map sectionHeaderChunk := by
  refine ⟨by decide, ?_, ?_⟩
  · intro d s t h
    exact Option.noConfusion h
  · exact claim7_one_header_per_model ["mA", "mB"] "out" emptyFS wEntries 3
      (by decide) (fun d s t h => Option.noConfusion h)

/-! ### C2: the two sample lists agree -/

/-- C2: for every directory listing and sample count, the sequence of image
stems the report generator iterates (filter to image files, map to stems,
truncate) equals the sequence of stems of the files the runner processes
(filter to image files, truncate): identical ordering and truncation, the
shared `dir` argument modelling the assumption that directory enumeration
order is the same across the two calls. -/
theorem claim2_sample_lists_agree (dir : List Entry) (n : Nat) :
    sampleStems dir n = (sampleFiles dir n).map Entry.stem := by
  simp [sampleStems, sampleFiles, List.map_take]

/-! ### C3: requests are issued for exactly the first min(k, N) image files -/

/-- C3: when every sampled image file is readable, the runner issues
inference requests for exactly the first `min k n` image files of the
directory listing in enumeration order, where `k` counts the image files. -/
theorem claim3_requests_first_min (dir : List Entry) (n : Nat) (env : Env)
    (M base : String)
    (hread : ∀ e ∈ sampleFiles dir n, env.readOk M e = true) :
    (run_ollama_ocr_integrated M dir base n env).requests
        = (sampleFiles dir n).map (fun e => mkRequest M (env.imageData e)) ∧
      (run_ollama_ocr_integrated M dir base n env).requests.length
        = min ((dir.filter isImageFile).length) n := by
  have hfilt : (sampleFiles dir n).filter (fun e => env.readOk M e)
      = sampleFiles dir n := List.filter_eq_self.mpr hread
  have hreq := run_requests M dir base n env
  rw [hfilt] at hreq
  refine ⟨hreq, ?_⟩
  rw [hreq, List.length_map]
  simp [sampleFiles, List.length_take, Nat.min_comm]

theorem claim3_requests_first_min_witness :
    (∀ e ∈ sampleFiles wEntries 3, wEnv.readOk "m1" e = true) ∧
      ((run_ollama_ocr_integrated "m1" wEntries "out" 3 wEnv).requests
          = (sampleFiles wEntries 3).map (fun e => mkRequest "m1" (wEnv.imageData e)) ∧
        (run_ollama_ocr_integrated "m1" wEntries "out" 3 wEnv).requests.length
          = min ((wEntries.filter isImageFile).length) 3) :=
  ⟨by decide, claim3_requests_first_min wEntries 3 wEnv "m1" "out" (by decide)⟩

/-! ### C5: the runner never aborts early; success flag semantics -/

/-- C5: the runner's success flag is true exactly when some image file was
found and every sampled image succeeded (false iff at least one image
failed or none were found); and the loop continues past failures: the
files written are exactly those of the successful images, in order, so
every sampled image is still considered after any failure. -/
theorem claim5_never_aborts (M : String) (dir : List Entry) (base : String)
    (n : Nat) (env : Env) :
    ((run_ollama_ocr_integrated M dir base n env).success = true ↔
      (sampleFiles dir n ≠ [] ∧
        ∀ e ∈ sampleFiles dir n, imageOk env M e = true)) ∧
    (run_ollama_ocr_integrated M dir base n env).files
      = ((sampleFiles dir n).filter (fun e => imageOk env M e)).map
          (fun e => (e.stem, runnerText env M e)) := by
  refine ⟨?_, run_files M dir base n env⟩
  rw [run_success]
  simp [List.isEmpty_iff, List.all_eq_true]

/-! ### C6: one output path per processed image -/

/-- C6: every file the runner writes belongs to a sampled image and sits at
the single path `<base>/<sanitized-model>/<stem>.txt` (the write effects
list), and the number of distinct file names written is at most the number
of sampled images: at most one file per input image. -/
theorem claim6_one_file_per_image (M : String) (dir : List Entry)
    (base : String) (n : Nat) (env : Env) :
    (∀ p ∈ (run_ollama_ocr_integrated M dir base n env).files,
        ∃ e ∈ sampleFiles dir n, p.1 = e.stem) ∧
    ((run_ollama_ocr_integrated M dir base n env).files.map Prod.fst).dedup.length
        ≤ (sampleFiles dir n).length ∧
    (run_ollama_ocr_integrated M dir base n env).effects
      = Effect.mkdir (outputDirPath base M) ::
          ((run_ollama_ocr_integrated M dir base n env).files.map
            (fun p => Effect.write (filePath (outputDirPath base M) p.1) p.2)) := by
  refine ⟨?_, ?_, run_effects M dir base n env⟩
  · intro p hp
    rw [run_files] at hp
    obtain ⟨e, he, rfl⟩ := List.mem_map.mp hp
    exact ⟨e, List.mem_of_mem_filter he, rfl⟩
  · calc ((run_ollama_ocr_integrated M dir base n env).files.map Prod.fst).dedup.length
        ≤ ((run_ollama_ocr_integrated M dir base n env).files.map Prod.fst).length :=
          (List.dedup_sublist _).length_le
      _ ≤ (sampleFiles dir n).length := by
          rw [run_files, List.length_map, List.length_map]
          exact List.length_filter_le _ _

end CompareOcr
